import Mathlib

/-!
Verification of the permutation-based spatial autocorrelation tester described
in the design specification of the `workshop-pysal-wrsa24` notebooks.

The notebooks delegate every statistical computation to external libraries
(`esda`, `libpysal`): the repository's own source only builds inputs
(the 9×9 checkerboard image, the median-thresholded binary label vector) and
reads result fields.  The statistic and permutation-test algorithms are
therefore modelled from the specification's own computational descriptions
(§4.2 join counts, §4.3 Moran's I, §4.4 permutation null-distribution
generator, §4.5 local variant), while the pieces that do appear in the
notebook source (the checkerboard construction, the median thresholding)
are embedded directly from that source.

Conventions: spatial weights are a function `w : ℕ → ℕ → ℚ` together with a
unit count `n`; attribute vectors are `List ℚ`; binary label vectors are
`ℕ → ℕ` taking values in `{0, 1}`.
-/

namespace SpatialAuto

/-! ## Join-count statistics (spec §4.2)

Modelled from the spec: the join-count computation of `esda.join_counts.Join_Counts`
is not in the repository; §4.2 says: "for every neighbor pair `(i,j)` with
`i<j` that are neighbors, classify the pair as BB, WW, or BW according to the
two units' labels; sum counts across all such pairs."  A pair is a neighbor
pair when its weight is nonzero (binary weights). -/

/-- The set of undirected joins: pairs `(i, j)` with `i < j < n` whose weight
is nonzero. -/
def joinPairs (n : ℕ) (w : ℕ → ℕ → ℚ) : Finset (ℕ × ℕ) :=
  (Finset.range n ×ˢ Finset.range n).filter (fun p => p.1 < p.2 ∧ w p.1 p.2 ≠ 0)

/-- Total number of joins (undirected neighbor pairs). -/
def totalJoins (n : ℕ) (w : ℕ → ℕ → ℚ) : ℕ :=
  (joinPairs n w).card

/-- BB join count: joins whose two units are both labelled 1 ("black"). -/
def bbCount (n : ℕ) (w : ℕ → ℕ → ℚ) (y : ℕ → ℕ) : ℕ :=
  ((joinPairs n w).filter (fun p => y p.1 = 1 ∧ y p.2 = 1)).card

/-- WW join count: joins whose two units are both labelled 0 ("white"). -/
def wwCount (n : ℕ) (w : ℕ → ℕ → ℚ) (y : ℕ → ℕ) : ℕ :=
  ((joinPairs n w).filter (fun p => y p.1 = 0 ∧ y p.2 = 0)).card

/-- BW join count: joins whose two units carry different labels. -/
def bwCount (n : ℕ) (w : ℕ → ℕ → ℚ) (y : ℕ → ℕ) : ℕ :=
  ((joinPairs n w).filter (fun p => y p.1 ≠ y p.2)).card

/-- `S0`: the sum of all weights, as read from `wq.s0` in the notebook. -/
def S0 (n : ℕ) (w : ℕ → ℕ → ℚ) : ℚ :=
  ∑ i ∈ Finset.range n, ∑ j ∈ Finset.range n, w i j

/-- A weights structure is binary, symmetric and has no self-loops. -/
def BinarySymmetric (n : ℕ) (w : ℕ → ℕ → ℚ) : Prop :=
  (∀ i < n, ∀ j < n, w i j = 0 ∨ w i j = 1) ∧
  (∀ i < n, ∀ j < n, w i j = w j i) ∧
  (∀ i < n, w i i = 0)

/-- A label vector is binary on the first `n` units. -/
def BinaryLabels (n : ℕ) (y : ℕ → ℕ) : Prop :=
  ∀ i < n, y i = 0 ∨ y i = 1

lemma mem_joinPairs {n : ℕ} {w : ℕ → ℕ → ℚ} {p : ℕ × ℕ} :
    p ∈ joinPairs n w ↔ p.1 < n ∧ p.2 < n ∧ p.1 < p.2 ∧ w p.1 p.2 ≠ 0 := by
  simp [joinPairs, Finset.mem_filter, Finset.mem_product, and_assoc]

/-- With binary labels, the BB, WW and BW classes partition the joins. -/
lemma join_counts_partition {n : ℕ} {w : ℕ → ℕ → ℚ} {y : ℕ → ℕ}
    (hy : BinaryLabels n y) :
    bbCount n w y + wwCount n w y + bwCount n w y = totalJoins n w := by
  classical
  have hsplit :
      ((joinPairs n w).filter (fun p => y p.1 = y p.2)).card +
        ((joinPairs n w).filter (fun p => ¬ y p.1 = y p.2)).card =
        (joinPairs n w).card :=
    Finset.filter_card_add_filter_neg_card_eq_card (fun p : ℕ × ℕ => y p.1 = y p.2)
  have heq :
      (joinPairs n w).filter (fun p => y p.1 = y p.2) =
        ((joinPairs n w).filter (fun p => y p.1 = 1 ∧ y p.2 = 1)) ∪
          ((joinPairs n w).filter (fun p => y p.1 = 0 ∧ y p.2 = 0)) := by
    ext p
    simp only [Finset.mem_filter, Finset.mem_union]
    constructor
    · rintro ⟨hp, hyy⟩
      rcases mem_joinPairs.mp hp with ⟨h1, h2, -, -⟩
      rcases hy p.1 h1 with h0 | h0
      · exact Or.inr ⟨hp, h0, hyy ▸ h0⟩
      · exact Or.inl ⟨hp, h0, hyy ▸ h0⟩
    · rintro (⟨hp, ha, hb⟩ | ⟨hp, ha, hb⟩) <;> exact ⟨hp, by rw [ha, hb]⟩
  have hdisj :
      Disjoint ((joinPairs n w).filter (fun p => y p.1 = 1 ∧ y p.2 = 1))
        ((joinPairs n w).filter (fun p => y p.1 = 0 ∧ y p.2 = 0)) := by
    refine Finset.disjoint_left.mpr ?_
    intro p hp hq
    rcases Finset.mem_filter.mp hp with ⟨-, h1, -⟩
    rcases Finset.mem_filter.mp hq with ⟨-, h0, -⟩
    simp_all
  have hcard :
      ((joinPairs n w).filter (fun p => y p.1 = y p.2)).card =
        bbCount n w y + wwCount n w y := by
    rw [heq, Finset.card_union_of_disjoint hdisj]; rfl
  have : bbCount n w y + wwCount n w y + bwCount n w y =
      ((joinPairs n w).filter (fun p => y p.1 = y p.2)).card +
        ((joinPairs n w).filter (fun p => ¬ y p.1 = y p.2)).card := by
    rw [hcard]; rfl
  rw [this, hsplit]; rfl

/-- For binary symmetric weights without self-loops, `S0` is twice the number
of joins. -/
lemma S0_eq_two_mul_totalJoins {n : ℕ} {w : ℕ → ℕ → ℚ}
    (hw : BinarySymmetric n w) :
    S0 n w = 2 * (totalJoins n w : ℚ) := by
  classical
  obtain ⟨hbin, hsym, hdiag⟩ := hw
  set P : Finset (ℕ × ℕ) := Finset.range n ×ˢ Finset.range n with hP
  have hmemP : ∀ p : ℕ × ℕ, p ∈ P ↔ p.1 < n ∧ p.2 < n := by
    intro p; simp [hP, Finset.mem_product]
  have hS0 : S0 n w = ∑ p ∈ P, w p.1 p.2 := by
    rw [S0, hP, Finset.sum_product]
  have hsplit1 :
      ∑ p ∈ P, w p.1 p.2 =
        ∑ p ∈ P.filter (fun p => p.1 < p.2), w p.1 p.2 +
          ∑ p ∈ P.filter (fun p => ¬ p.1 < p.2), w p.1 p.2 :=
    (Finset.sum_filter_add_sum_filter_not P _ _).symm
  have hsplit2 :
      ∑ p ∈ P.filter (fun p => ¬ p.1 < p.2), w p.1 p.2 =
        ∑ p ∈ P.filter (fun p => p.2 < p.1), w p.1 p.2 +
          ∑ p ∈ P.filter (fun p => p.1 = p.2), w p.1 p.2 := by
    rw [← Finset.sum_filter_add_sum_filter_not (P.filter (fun p => ¬ p.1 < p.2))
      (fun p => p.2 < p.1)]
    congr 1
    · congr 1
      rw [Finset.filter_filter]
      exact Finset.filter_congr (by intro p _; constructor <;> (intro h; omega))
    · congr 1
      rw [Finset.filter_filter]
      exact Finset.filter_congr (by intro p _; constructor <;> (intro h; omega))
  have hdiag0 : ∑ p ∈ P.filter (fun p => p.1 = p.2), w p.1 p.2 = 0 := by
    refine Finset.sum_eq_zero ?_
    intro p hp
    rcases Finset.mem_filter.mp hp with ⟨hpP, hpe⟩
    rcases (hmemP p).mp hpP with ⟨h1, -⟩
    rw [← hpe]; exact hdiag p.1 h1
  have hupper :
      ∑ p ∈ P.filter (fun p => p.1 < p.2), w p.1 p.2 = (totalJoins n w : ℚ) := by
    have hsub : joinPairs n w ⊆ P.filter (fun p => p.1 < p.2) := by
      intro p hp
      rcases mem_joinPairs.mp hp with ⟨h1, h2, hlt, -⟩
      exact Finset.mem_filter.mpr ⟨(hmemP p).mpr ⟨h1, h2⟩, hlt⟩
    have hzero : ∀ p ∈ P.filter (fun p => p.1 < p.2), p ∉ joinPairs n w →
        w p.1 p.2 = 0 := by
      intro p hp hnp
      rcases Finset.mem_filter.mp hp with ⟨hpP, hlt⟩
      rcases (hmemP p).mp hpP with ⟨h1, h2⟩
      by_contra hne
      exact hnp (mem_joinPairs.mpr ⟨h1, h2, hlt, hne⟩)
    rw [← Finset.sum_subset hsub hzero]
    have hone : ∀ p ∈ joinPairs n w, w p.1 p.2 = 1 := by
      intro p hp
      rcases mem_joinPairs.mp hp with ⟨h1, h2, -, hne⟩
      rcases hbin p.1 h1 p.2 h2 with h0 | h0
      · exact absurd h0 hne
      · exact h0
    rw [Finset.sum_congr rfl hone, Finset.sum_const, nsmul_eq_mul, mul_one]
    rfl
  have hlower :
      ∑ p ∈ P.filter (fun p => p.2 < p.1), w p.1 p.2 =
        ∑ p ∈ P.filter (fun p => p.1 < p.2), w p.1 p.2 := by
    refine Finset.sum_nbij' Prod.swap Prod.swap ?_ ?_ ?_ ?_ ?_
    · intro p hp
      rcases Finset.mem_filter.mp hp with ⟨hpP, hlt⟩
      rcases (hmemP p).mp hpP with ⟨h1, h2⟩
      exact Finset.mem_filter.mpr ⟨(hmemP p.swap).mpr ⟨h2, h1⟩, hlt⟩
    · intro p hp
      rcases Finset.mem_filter.mp hp with ⟨hpP, hlt⟩
      rcases (hmemP p).mp hpP with ⟨h1, h2⟩
      exact Finset.mem_filter.mpr ⟨(hmemP p.swap).mpr ⟨h2, h1⟩, hlt⟩
    · intro p _; rfl
    · intro p _; rfl
    · intro p hp
      rcases Finset.mem_filter.mp hp with ⟨hpP, -⟩
      rcases (hmemP p).mp hpP with ⟨h1, h2⟩
      exact hsym p.1 h1 p.2 h2
  rw [hS0, hsplit1, hsplit2, hdiag0, hupper, hlower, hupper]
  ring

/-- A weights function read off a list of rows; used to build concrete
weight matrices for evaluation. -/
def wOfList (rows : List (List ℚ)) : ℕ → ℕ → ℚ :=
  fun i j => (rows.getD i []).getD j 0

/-- A label function read off a list. -/
def labelOfList (ls : List ℕ) : ℕ → ℕ :=
  fun i => ls.getD i 0

/-! ## The 9×9 checkerboard scenario -/

/-- The checkerboard image built in the notebook:
`image = np.zeros(nrows*ncols)`, `image[::2] = 1`, then reshaped to 9×9.
Flat cell `k` holds 1 exactly when `k` is even; after reshaping, cell
`(r, c)` holds 1 exactly when `r + c` is even. -/
def checkerLabel : ℕ → ℕ := fun k => if k % 2 = 0 then 1 else 0

/-- Modelled from the spec: queen contiguity on a grid
(`lps.weights.Queen.from_dataframe` is not in the repository).  Two distinct
cells of an `ncols`-wide grid, addressed by flat index, are queen neighbors
when their rows and their columns each differ by at most one, i.e. they share
an edge or a corner. -/
def queenW (ncols : ℕ) : ℕ → ℕ → ℚ := fun i j =>
  if i ≠ j ∧ (max (i / ncols) (j / ncols) - min (i / ncols) (j / ncols) ≤ 1)
      ∧ (max (i % ncols) (j % ncols) - min (i % ncols) (j % ncols) ≤ 1)
  then 1 else 0

/-! ## Permutation null-distribution generator (spec §4.4)

Modelled from the spec: the permutation machinery of `esda` is not in the
repository.  §4.4: "for each of `n_permutations` trials, produce a uniformly
random reordering of the attribute/label values across unit indices (keeping
the weights structure fixed), recompute the statistic on the permuted
assignment, and record it"; the pseudo p-value for a one-sided high-tail test
is `(#{simulated >= observed} + 1) / (n_permutations + 1)`.  The seeded
uniformly random reordering is abstracted as a caller-supplied deterministic
shuffle procedure: `shuffle seed k y` is the reordering used at trial `k`. -/

/-- Mean of a simulated distribution. -/
def listMean (xs : List ℚ) : ℚ := xs.sum / xs.length

/-- Variance of a simulated distribution. -/
def listVariance (xs : List ℚ) : ℚ :=
  ((xs.map (fun v => (v - listMean xs) ^ 2)).sum) / xs.length

/-- Modelled from the spec: pseudo p-value of an observed value against a
simulated distribution, one-sided high tail:
`(#{simulated >= observed} + 1) / (n_permutations + 1)`. -/
def pSim (sims : List ℚ) (obs : ℚ) : ℚ :=
  ((sims.countP (fun s => decide (obs ≤ s)) : ℚ) + 1) / ((sims.length : ℚ) + 1)

/-- Test Result record (spec §3): observed statistic, simulated values in
trial order, their mean and variance, and the pseudo p-value. -/
structure TestResult where
  observed : ℚ
  sims : List ℚ
  simMean : ℚ
  simVariance : ℚ
  pValue : ℚ
  deriving Repr, DecidableEq

/-- Modelled from the spec (§4.4): the permutation null-distribution
generator.  `stat w y` is the statistic of vector `y` under weights `w`;
trial `k` recomputes it on the shuffled vector `shuffle seed k y`. -/
def runPermTest (stat : (ℕ → ℕ → ℚ) → List ℚ → ℚ) (w : ℕ → ℕ → ℚ)
    (shuffle : ℕ → ℕ → List ℚ → List ℚ) (y : List ℚ) (nperm seed : ℕ) :
    TestResult :=
  let obs := stat w y
  let sims := (List.range nperm).map (fun k => stat w (shuffle seed k y))
  { observed := obs
    sims := sims
    simMean := listMean sims
    simVariance := listVariance sims
    pValue := pSim sims obs }

/-- A concrete statistic used for evaluating witnesses: the plain sum. -/
def sumStat : (ℕ → ℕ → ℚ) → List ℚ → ℚ := fun _ y => y.sum

/-- A concrete shuffle used for evaluating witnesses: rotate by the trial
index plus the seed. -/
def rotShuffle : ℕ → ℕ → List ℚ → List ℚ := fun seed k y =>
  y.rotateLeft (seed + k)

/-! ## Moran's I (spec §4.3) -/

/-- Data errors of the tester (spec §7): zero-variance attribute vectors and
weights structures with isolated units are rejected, not silently computed. -/
inductive DataError where
  | zeroVariance
  | isolatedUnit
  deriving Repr, DecidableEq

/-- Mean of the first `n` entries of an attribute function. -/
def meanOf (n : ℕ) (y : ℕ → ℚ) : ℚ := (∑ i ∈ Finset.range n, y i) / n

/-- Mean-centered deviation `z_i = y_i - mean`. -/
def zdev (n : ℕ) (y : ℕ → ℚ) (i : ℕ) : ℚ := y i - meanOf n y

/-- Sum of squared deviations `Σ_i z_i²`. -/
def sumSqDev (n : ℕ) (y : ℕ → ℚ) : ℚ :=
  ∑ i ∈ Finset.range n, zdev n y i ^ 2

/-- Spatially weighted cross product `Σ_i Σ_j w_ij z_i z_j`. -/
def crossProd (n : ℕ) (w : ℕ → ℕ → ℚ) (y : ℕ → ℚ) : ℚ :=
  ∑ i ∈ Finset.range n, ∑ j ∈ Finset.range n, w i j * zdev n y i * zdev n y j

/-- Modelled from the spec: `esda.moran.Moran` is not in the repository;
§4.3 gives `I = (n / S0) * (Σ_i Σ_j w_ij z_i z_j) / (Σ_i z_i²)` on the
mean-centered attribute, and §8 requires a data error (not a silent NaN) on a
zero-variance attribute vector. -/
def moran (n : ℕ) (w : ℕ → ℕ → ℚ) (y : ℕ → ℚ) : Except DataError ℚ :=
  if sumSqDev n y = 0 then Except.error DataError.zeroVariance
  else Except.ok ((n / S0 n w) * crossProd n w y / sumSqDev n y)

/-- A weights structure is row-standardized when each unit's weights sum
to one. -/
def RowStandardized (n : ℕ) (w : ℕ → ℕ → ℚ) : Prop :=
  ∀ i < n, ∑ j ∈ Finset.range n, w i j = 1

/-- An attribute function read off a list. -/
def attrOfList (ls : List ℚ) : ℕ → ℚ :=
  fun i => ls.getD i 0

/-! ## Isolated-unit checking (spec §4.4 failure mode, §7) -/

/-- A weights structure has an isolate when some unit has zero weight to
every unit. -/
def hasIsolate (n : ℕ) (w : ℕ → ℕ → ℚ) : Bool :=
  (List.range n).any (fun i => (List.range n).all (fun j => decide (w i j = 0)))

/-- Modelled from the spec: the permutation tester front end; §4.4 "if
weights structure has isolated units (no neighbors) the statistic for that
unit is undefined and must be flagged, not silently zero-filled" and §7
"Units with zero neighbors: fails with a data error". -/
def checkedPermTest (stat : (ℕ → ℕ → ℚ) → List ℚ → ℚ) (n : ℕ)
    (w : ℕ → ℕ → ℚ) (shuffle : ℕ → ℕ → List ℚ → List ℚ) (y : List ℚ)
    (nperm seed : ℕ) : Except DataError TestResult :=
  if hasIsolate n w then Except.error DataError.isolatedUnit
  else Except.ok (runPermTest stat w shuffle y nperm seed)

/-! ## Local (per-unit) variant (spec §4.4–§4.5) -/

/-- Modelled from the spec: conditional permutation for the local variant —
"the focal unit's own value is held fixed and only the other n-1 values are
reshuffled among the remaining positions".  `shuffle` reorders the n-1
non-focal values; the focal value is re-inserted at its position. -/
def condPermute (shuffle : List ℚ → List ℚ) (y : List ℚ) (i : ℕ) : List ℚ :=
  (shuffle (y.eraseIdx i)).insertIdx i (y.getD i 0)

/-- Modelled from the spec (§4.5): the local permutation test returns, for
each focal unit `i`, its own simulated distribution (from conditional
permutations) and its own pseudo p-value. -/
def localPermTest (localStat : List ℚ → ℕ → ℚ)
    (shuffle : ℕ → ℕ → ℕ → List ℚ → List ℚ) (y : List ℚ)
    (nperm seed : ℕ) : List (List ℚ × ℚ) :=
  (List.range y.length).map (fun i =>
    let sims := (List.range nperm).map
      (fun k => localStat (condPermute (shuffle seed i k) y i) i)
    (sims, pSim sims (localStat y i)))

/-! ## Median thresholding (notebook: `yb = 1 * (y > y.median())`) -/

/-- The median as computed by `y.median()` (pandas): sort the values; take
the middle element when the length is odd, the average of the two middle
elements when it is even. -/
def median (ys : List ℚ) : ℚ :=
  let s := List.insertionSort (· ≤ ·) ys
  if ys.length % 2 = 1 then s.getD (ys.length / 2) 0
  else (s.getD (ys.length / 2 - 1) 0 + s.getD (ys.length / 2) 0) / 2

/-- The binary label vector built in the notebook source:
`yb = 1 * (y > y.median())` — label 1 exactly where the value is strictly
greater than the median. -/
def highLabels (ys : List ℚ) : List ℕ :=
  ys.map (fun v => if median ys < v then 1 else 0)

/-- In a sorted list, at most `length - k - 1` elements exceed any bound that
is at least the element at index `k`. -/
lemma countP_gt_le_of_sorted :
    ∀ (s : List ℚ), s.Sorted (· ≤ ·) → ∀ (k : ℕ), ∀ hk : k < s.length, ∀ m : ℚ,
      s[k] ≤ m → s.countP (fun x => decide (m < x)) ≤ s.length - k - 1 := by
  intro s
  induction s with
  | nil => intro _ k hk; simp at hk
  | cons a t ih =>
    intro hs k hk m hm
    rcases List.sorted_cons.mp hs with ⟨ha, ht⟩
    cases k with
    | zero =>
      have hna : ¬ (m < a) := not_lt.mpr (by simpa using hm)
      rw [List.countP_cons_of_neg _ t (by simpa using hna)]
      simpa using List.countP_le_length (fun x => decide (m < x)) (l := t)
    | succ j =>
      have hj : j < t.length := by simpa using hk
      have hm' : t[j] ≤ m := by simpa using hm
      have hat : a ≤ t[j] := ha _ (t.getElem_mem hj)
      have hna : ¬ (m < a) := not_lt.mpr (le_trans hat hm')
      rw [List.countP_cons_of_neg _ t (by simpa using hna)]
      have hgoal := ih ht j hj m hm'
      simp only [List.length_cons]
      omega

/-- The number of 1-labels equals the number of values above the median. -/
lemma count_one_highLabels (ys : List ℚ) :
    (highLabels ys).count 1 = ys.countP (fun v => decide (median ys < v)) := by
  rw [highLabels, List.count_eq_countP, List.countP_map]
  refine List.countP_congr ?_
  intro v _
  by_cases h : median ys < v <;> simp [h, Function.comp]

/-- When some value attains the median, strictly fewer than half the units
are labelled high. -/
lemma two_mul_count_high_lt_length (ys : List ℚ)
    (hx : ∃ x ∈ ys, x = median ys) :
    2 * (highLabels ys).count 1 < ys.length := by
  obtain ⟨x, hxmem, hxeq⟩ := hx
  set s := List.insertionSort (· ≤ ·) ys with hs
  have hperm : s.Perm ys := List.perm_insertionSort _ _
  have hsorted : s.Sorted (· ≤ ·) := List.sorted_insertionSort _ _
  have hlen : s.length = ys.length := hperm.length_eq
  have hpos : 0 < ys.length := List.length_pos.mpr (List.ne_nil_of_mem hxmem)
  have hcount : (highLabels ys).count 1 = s.countP (fun v => decide (median ys < v)) := by
    rw [count_one_highLabels]
    exact (List.Perm.countP_eq _ hperm).symm
  have hk2 : ys.length / 2 < s.length := by rw [hlen]; omega
  rcases Nat.even_or_odd ys.length with he | ho
  · have hmod : ys.length % 2 = 0 := Nat.even_iff.mp he
    have hn2 : 2 ≤ ys.length := by omega
    have hk1 : ys.length / 2 - 1 < s.length := by omega
    have hmed : median ys = (s[ys.length / 2 - 1] + s[ys.length / 2]) / 2 := by
      rw [median, if_neg (by omega)]
      rw [List.getD_eq_getElem _ _ hk1, List.getD_eq_getElem _ _ hk2]
    have hk12 : ys.length / 2 - 1 < ys.length / 2 := by omega
    have hab : s[ys.length / 2 - 1] ≤ s[ys.length / 2] := by
      have := hsorted.rel_get_of_lt
        (a := ⟨ys.length / 2 - 1, hk1⟩) (b := ⟨ys.length / 2, hk2⟩)
        (by exact hk12)
      simpa using this
    have heq : s[ys.length / 2 - 1] = s[ys.length / 2] := by
      by_contra hne
      have hlt : s[ys.length / 2 - 1] < s[ys.length / 2] := lt_of_le_of_ne hab hne
      have hxs : x ∈ s := hperm.mem_iff.mpr hxmem
      obtain ⟨j, hj, hjx⟩ := List.mem_iff_getElem.mp hxs
      rcases le_or_lt j (ys.length / 2 - 1) with hcase | hcase
      · have hxle : s[j] ≤ s[ys.length / 2 - 1] := by
          rcases eq_or_lt_of_le hcase with hje | hjlt
          · exact le_of_eq (by congr 1)
          · have := hsorted.rel_get_of_lt (a := ⟨j, hj⟩) (b := ⟨ys.length / 2 - 1, hk1⟩)
              (by exact hjlt)
            simpa using this
        rw [hjx] at hxle
        rw [hxeq, hmed] at hxle
        linarith
      · have hj2 : ys.length / 2 ≤ j := by omega
        have hxge : s[ys.length / 2] ≤ s[j] := by
          rcases eq_or_lt_of_le hj2 with hje | hjlt
          · exact le_of_eq (by congr 1)
          · have := hsorted.rel_get_of_lt (a := ⟨ys.length / 2, hk2⟩) (b := ⟨j, hj⟩)
              (by exact hjlt)
            simpa using this
        rw [hjx] at hxge
        rw [hxeq, hmed] at hxge
        linarith
    have hmed2 : median ys = s[ys.length / 2] := by
      rw [hmed, heq]; ring
    have hbound := countP_gt_le_of_sorted s hsorted (ys.length / 2) hk2
      (median ys) (le_of_eq hmed2.symm)
    rw [hcount]
    omega
  · have hmod : ys.length % 2 = 1 := Nat.odd_iff.mp ho
    have hmed : median ys = s[ys.length / 2] := by
      rw [median, if_pos hmod, List.getD_eq_getElem _ _ hk2]
    have hbound := countP_gt_le_of_sorted s hsorted (ys.length / 2) hk2
      (median ys) (le_of_eq hmed.symm)
    rw [hcount]
    omega

end SpatialAuto

/-- C1: for every binary label vector and every binary (unstandardized)
symmetric weights structure without self-loops, the join-count statistic
satisfies `BB + WW + BW = total join count`, and the total join count equals
half the sum of all weights (`S0 / 2`). -/
theorem C1_join_counts_exhaustive (n : ℕ) (w : ℕ → ℕ → ℚ) (y : ℕ → ℕ)
    (hw : SpatialAuto.BinarySymmetric n w) (hy : SpatialAuto.BinaryLabels n y) :
    SpatialAuto.bbCount n w y + SpatialAuto.wwCount n w y +
        SpatialAuto.bwCount n w y = SpatialAuto.totalJoins n w ∧
      (SpatialAuto.totalJoins n w : ℚ) = SpatialAuto.S0 n w / 2 := by
  refine ⟨SpatialAuto.join_counts_partition hy, ?_⟩
  rw [SpatialAuto.S0_eq_two_mul_totalJoins hw]
  ring

/-- Witness for C1 on a concrete two-unit system with a single join. -/
theorem C1_join_counts_exhaustive_witness :
    SpatialAuto.bbCount 2 (SpatialAuto.wOfList [[0, 1], [1, 0]])
          (SpatialAuto.labelOfList [0, 1]) +
        SpatialAuto.wwCount 2 (SpatialAuto.wOfList [[0, 1], [1, 0]])
          (SpatialAuto.labelOfList [0, 1]) +
        SpatialAuto.bwCount 2 (SpatialAuto.wOfList [[0, 1], [1, 0]])
          (SpatialAuto.labelOfList [0, 1]) =
        SpatialAuto.totalJoins 2 (SpatialAuto.wOfList [[0, 1], [1, 0]]) ∧
      (SpatialAuto.totalJoins 2 (SpatialAuto.wOfList [[0, 1], [1, 0]]) : ℚ) =
        SpatialAuto.S0 2 (SpatialAuto.wOfList [[0, 1], [1, 0]]) / 2 :=
  C1_join_counts_exhaustive 2 _ _
    (by unfold SpatialAuto.BinarySymmetric; decide)
    (by unfold SpatialAuto.BinaryLabels; decide)

/-- C2: for every statistic function, weights structure, shuffle procedure,
input vector, seed, and permutation count `nperm ≥ 1`, the pseudo p-value of
the permutation Test Result equals
`(#{trials whose simulated value >= observed} + 1) / (nperm + 1)`. -/
theorem C2_pseudo_p_value_rule (stat : (ℕ → ℕ → ℚ) → List ℚ → ℚ)
    (w : ℕ → ℕ → ℚ) (shuffle : ℕ → ℕ → List ℚ → List ℚ) (y : List ℚ)
    (nperm seed : ℕ) (hn : 1 ≤ nperm) :
    (SpatialAuto.runPermTest stat w shuffle y nperm seed).pValue =
      (((List.range nperm).countP
          (fun k => decide (stat w y ≤ stat w (shuffle seed k y))) : ℚ) + 1) /
        ((nperm : ℚ) + 1) := by
  simp [SpatialAuto.runPermTest, SpatialAuto.pSim, List.countP_map,
    Function.comp_def]

/-- Witness for C2: three rotation trials on a three-element vector. -/
theorem C2_pseudo_p_value_rule_witness :
    1 ≤ 3 ∧
      (SpatialAuto.runPermTest SpatialAuto.sumStat (SpatialAuto.wOfList [])
          SpatialAuto.rotShuffle [1, 2, 3] 3 0).pValue =
        (((List.range 3).countP
            (fun k => decide (SpatialAuto.sumStat (SpatialAuto.wOfList []) [1, 2, 3] ≤
              SpatialAuto.sumStat (SpatialAuto.wOfList [])
                (SpatialAuto.rotShuffle 0 k [1, 2, 3]))) : ℚ) + 1) /
          ((3 : ℚ) + 1) :=
  ⟨by decide,
    C2_pseudo_p_value_rule SpatialAuto.sumStat (SpatialAuto.wOfList [])
      SpatialAuto.rotShuffle [1, 2, 3] 3 0 (by decide)⟩

/-- C4: with identical seed and identical inputs, two runs of the permutation
test produce identical simulated distributions and identical pseudo p-values. -/
theorem C4_determinism (stat : (ℕ → ℕ → ℚ) → List ℚ → ℚ) (w : ℕ → ℕ → ℚ)
    (shuffle : ℕ → ℕ → List ℚ → List ℚ) (y : List ℚ) (nperm : ℕ)
    (seed₁ seed₂ : ℕ) (h : seed₁ = seed₂) :
    (SpatialAuto.runPermTest stat w shuffle y nperm seed₁).sims =
        (SpatialAuto.runPermTest stat w shuffle y nperm seed₂).sims ∧
      (SpatialAuto.runPermTest stat w shuffle y nperm seed₁).pValue =
        (SpatialAuto.runPermTest stat w shuffle y nperm seed₂).pValue := by
  subst h; exact ⟨rfl, rfl⟩

/-- Witness for C4 at a concrete seed and input. -/
theorem C4_determinism_witness :
    (SpatialAuto.runPermTest SpatialAuto.sumStat (SpatialAuto.wOfList [])
          SpatialAuto.rotShuffle [1, 2] 2 12345).sims =
        (SpatialAuto.runPermTest SpatialAuto.sumStat (SpatialAuto.wOfList [])
          SpatialAuto.rotShuffle [1, 2] 2 12345).sims ∧
      (SpatialAuto.runPermTest SpatialAuto.sumStat (SpatialAuto.wOfList [])
          SpatialAuto.rotShuffle [1, 2] 2 12345).pValue =
        (SpatialAuto.runPermTest SpatialAuto.sumStat (SpatialAuto.wOfList [])
          SpatialAuto.rotShuffle [1, 2] 2 12345).pValue :=
  C4_determinism SpatialAuto.sumStat (SpatialAuto.wOfList [])
    SpatialAuto.rotShuffle [1, 2] 2 12345 12345 rfl

/-- C5: the returned pseudo p-value lies in `(0, 1]`, and on a fixed
simulated distribution the p-value is non-increasing as the observed value
moves further into the high tail: `b ≤ a → pSim sims a ≤ pSim sims b`. -/
theorem C5_pvalue_range_and_monotone (stat : (ℕ → ℕ → ℚ) → List ℚ → ℚ)
    (w : ℕ → ℕ → ℚ) (shuffle : ℕ → ℕ → List ℚ → List ℚ) (y : List ℚ)
    (nperm seed : ℕ) (a b : ℚ) (hab : b ≤ a) :
    (0 < (SpatialAuto.runPermTest stat w shuffle y nperm seed).pValue ∧
        (SpatialAuto.runPermTest stat w shuffle y nperm seed).pValue ≤ 1) ∧
      SpatialAuto.pSim (SpatialAuto.runPermTest stat w shuffle y nperm seed).sims a ≤
        SpatialAuto.pSim (SpatialAuto.runPermTest stat w shuffle y nperm seed).sims b := by
  set sims := (SpatialAuto.runPermTest stat w shuffle y nperm seed).sims with hs
  have hp : (SpatialAuto.runPermTest stat w shuffle y nperm seed).pValue =
      SpatialAuto.pSim sims ((SpatialAuto.runPermTest stat w shuffle y nperm seed).observed) := rfl
  have hden : (0 : ℚ) < (sims.length : ℚ) + 1 := by positivity
  refine ⟨⟨?_, ?_⟩, ?_⟩
  · rw [hp]
    exact div_pos (by positivity) hden
  · rw [hp, SpatialAuto.pSim, div_le_one hden]
    have := sims.countP_le_length
      (p := fun s => decide ((SpatialAuto.runPermTest stat w shuffle y nperm seed).observed ≤ s))
    exact_mod_cast Nat.add_le_add_right this 1
  · unfold SpatialAuto.pSim
    rw [div_le_div_iff_of_pos_right hden]
    have hcount : sims.countP (fun s => decide (a ≤ s)) ≤
        sims.countP (fun s => decide (b ≤ s)) := by
      refine List.countP_mono_left ?_
      intro x _ hx
      simp only [decide_eq_true_eq] at hx ⊢
      linarith
    exact_mod_cast Nat.add_le_add_right hcount 1

/-- Witness for C5 on a concrete run with observed values 5 ≥ 3. -/
theorem C5_pvalue_range_and_monotone_witness :
    (3 : ℚ) ≤ 5 ∧
      ((0 < (SpatialAuto.runPermTest SpatialAuto.sumStat (SpatialAuto.wOfList [])
            SpatialAuto.rotShuffle [1, 2] 2 0).pValue ∧
          (SpatialAuto.runPermTest SpatialAuto.sumStat (SpatialAuto.wOfList [])
            SpatialAuto.rotShuffle [1, 2] 2 0).pValue ≤ 1) ∧
        SpatialAuto.pSim (SpatialAuto.runPermTest SpatialAuto.sumStat
            (SpatialAuto.wOfList []) SpatialAuto.rotShuffle [1, 2] 2 0).sims 5 ≤
          SpatialAuto.pSim (SpatialAuto.runPermTest SpatialAuto.sumStat
            (SpatialAuto.wOfList []) SpatialAuto.rotShuffle [1, 2] 2 0).sims 3) :=
  ⟨by norm_num,
    C5_pvalue_range_and_monotone SpatialAuto.sumStat (SpatialAuto.wOfList [])
      SpatialAuto.rotShuffle [1, 2] 2 0 5 3 (by norm_num)⟩

set_option maxRecDepth 100000

/-- C7 counterexample: on the notebook's 9×9 checkerboard under queen
contiguity the observed BB join count is not 0 — diagonal neighbors carry the
same label. -/
theorem C7_checkerboard_bb_zero_counterexample :
    ¬ SpatialAuto.bbCount 81 (SpatialAuto.queenW 9) SpatialAuto.checkerLabel = 0 := by
  decide

/-- C7 (amended): on the 9×9 checkerboard under queen contiguity the observed
BB join count is 64 (each diagonally adjacent pair shares its label), the BW
count is 144 (exactly the edge-adjacent pairs are mixed), and the total number
of joins is 272, the known queen contiguity count for a 9×9 grid. -/
theorem C7_checkerboard_queen_counts :
    SpatialAuto.bbCount 81 (SpatialAuto.queenW 9) SpatialAuto.checkerLabel = 64 ∧
      SpatialAuto.bwCount 81 (SpatialAuto.queenW 9) SpatialAuto.checkerLabel = 144 ∧
      SpatialAuto.totalJoins 81 (SpatialAuto.queenW 9) = 272 := by
  refine ⟨by decide, by decide, by decide⟩


/-- C3: for an attribute vector of length `n ≥ 2` with non-zero variance and
a row-standardized weights structure with `S0 > 0`, Moran's I is computed as
`(n / S0) * (Σ_i Σ_j w_ij z_i z_j) / (Σ_i z_i²)` with `z` the mean-centered
attribute. -/
theorem C3_moran_formula (n : ℕ) (w : ℕ → ℕ → ℚ) (y : ℕ → ℚ)
    (hn : 2 ≤ n) (hrow : SpatialAuto.RowStandardized n w)
    (hS0 : 0 < SpatialAuto.S0 n w) (hvar : SpatialAuto.sumSqDev n y ≠ 0) :
    SpatialAuto.moran n w y =
      Except.ok (((n : ℚ) / SpatialAuto.S0 n w) *
        (∑ i ∈ Finset.range n, ∑ j ∈ Finset.range n,
          w i j * (y i - SpatialAuto.meanOf n y) * (y j - SpatialAuto.meanOf n y)) /
        (∑ i ∈ Finset.range n, (y i - SpatialAuto.meanOf n y) ^ 2)) := by
  rw [SpatialAuto.moran, if_neg hvar]
  rfl

/-- Witness for C3 on a two-unit row-standardized system. -/
theorem C3_moran_formula_witness :
    (2 ≤ 2 ∧ SpatialAuto.RowStandardized 2 (SpatialAuto.wOfList [[0, 1], [1, 0]]) ∧
        0 < SpatialAuto.S0 2 (SpatialAuto.wOfList [[0, 1], [1, 0]]) ∧
        SpatialAuto.sumSqDev 2 (SpatialAuto.attrOfList [0, 1]) ≠ 0) ∧
      SpatialAuto.moran 2 (SpatialAuto.wOfList [[0, 1], [1, 0]])
          (SpatialAuto.attrOfList [0, 1]) =
        Except.ok (((2 : ℕ) : ℚ) / SpatialAuto.S0 2 (SpatialAuto.wOfList [[0, 1], [1, 0]]) *
          (∑ i ∈ Finset.range 2, ∑ j ∈ Finset.range 2,
            SpatialAuto.wOfList [[0, 1], [1, 0]] i j *
              (SpatialAuto.attrOfList [0, 1] i -
                SpatialAuto.meanOf 2 (SpatialAuto.attrOfList [0, 1])) *
              (SpatialAuto.attrOfList [0, 1] j -
                SpatialAuto.meanOf 2 (SpatialAuto.attrOfList [0, 1]))) /
          (∑ i ∈ Finset.range 2,
            (SpatialAuto.attrOfList [0, 1] i -
              SpatialAuto.meanOf 2 (SpatialAuto.attrOfList [0, 1])) ^ 2)) :=
  have hrow : SpatialAuto.RowStandardized 2 (SpatialAuto.wOfList [[0, 1], [1, 0]]) := by
    intro i hi
    interval_cases i <;>
      norm_num [SpatialAuto.wOfList, Finset.sum_range_succ]
  have hS0 : 0 < SpatialAuto.S0 2 (SpatialAuto.wOfList [[0, 1], [1, 0]]) := by
    norm_num [SpatialAuto.S0, SpatialAuto.wOfList, Finset.sum_range_succ]
  have hvar : SpatialAuto.sumSqDev 2 (SpatialAuto.attrOfList [0, 1]) ≠ 0 := by
    norm_num [SpatialAuto.sumSqDev, SpatialAuto.zdev, SpatialAuto.meanOf,
      SpatialAuto.attrOfList, Finset.sum_range_succ]
  ⟨⟨by norm_num, hrow, hS0, hvar⟩,
    C3_moran_formula 2 _ _ (by norm_num) hrow hS0 hvar⟩

/-- C8: on a constant attribute vector (zero variance) the Moran computation
fails with an explicit data error instead of returning a numeric value. -/
theorem C8_moran_constant_error (n : ℕ) (w : ℕ → ℕ → ℚ) (y : ℕ → ℚ) (c : ℚ)
    (hn : 0 < n) (hconst : ∀ i < n, y i = c) :
    SpatialAuto.moran n w y = Except.error SpatialAuto.DataError.zeroVariance := by
  have hn0 : (n : ℚ) ≠ 0 := Nat.cast_ne_zero.mpr hn.ne'
  have hmean : SpatialAuto.meanOf n y = c := by
    rw [SpatialAuto.meanOf,
      Finset.sum_congr rfl (fun i hi => hconst i (Finset.mem_range.mp hi)),
      Finset.sum_const, Finset.card_range, nsmul_eq_mul]
    field_simp
  have hssz : SpatialAuto.sumSqDev n y = 0 := by
    refine Finset.sum_eq_zero ?_
    intro i hi
    rw [SpatialAuto.zdev, hconst i (Finset.mem_range.mp hi), hmean]
    ring
  rw [SpatialAuto.moran, if_pos hssz]

/-- Witness for C8: a constant three-unit vector. -/
theorem C8_moran_constant_error_witness :
    (0 < 3 ∧ ∀ i < 3, SpatialAuto.attrOfList [5, 5, 5] i = 5) ∧
      SpatialAuto.moran 3 (SpatialAuto.wOfList []) (SpatialAuto.attrOfList [5, 5, 5]) =
        Except.error SpatialAuto.DataError.zeroVariance :=
  ⟨⟨by decide, by decide⟩,
    C8_moran_constant_error 3 _ _ 5 (by decide) (by decide)⟩

/-- C9: a weights structure containing an isolated unit (zero weight to every
unit) makes the checked permutation tester fail with a data error rather than
silently including the unit. -/
theorem C9_isolate_flagged (stat : (ℕ → ℕ → ℚ) → List ℚ → ℚ) (n : ℕ)
    (w : ℕ → ℕ → ℚ) (shuffle : ℕ → ℕ → List ℚ → List ℚ) (y : List ℚ)
    (nperm seed : ℕ) (h : SpatialAuto.hasIsolate n w = true) :
    SpatialAuto.checkedPermTest stat n w shuffle y nperm seed =
      Except.error SpatialAuto.DataError.isolatedUnit := by
  rw [SpatialAuto.checkedPermTest, if_pos h]

/-- Witness for C9: unit 0 of a two-unit system has no neighbors. -/
theorem C9_isolate_flagged_witness :
    SpatialAuto.hasIsolate 2 (SpatialAuto.wOfList [[0, 0], [0, 1]]) = true ∧
      SpatialAuto.checkedPermTest SpatialAuto.sumStat 2
          (SpatialAuto.wOfList [[0, 0], [0, 1]]) SpatialAuto.rotShuffle [1, 2] 1 0 =
        Except.error SpatialAuto.DataError.isolatedUnit :=
  ⟨by decide,
    C9_isolate_flagged SpatialAuto.sumStat 2 _ SpatialAuto.rotShuffle [1, 2] 1 0 (by decide)⟩

/-- C6: the local variant produces one (distribution, p-value) pair per unit,
unit `i`'s p-value is the pseudo p-value of its own `nperm`-trial simulated
distribution, and each conditional permutation holds the focal unit's value
fixed while reshuffling exactly the other values among the remaining
positions. -/
theorem C6_local_conditional_permutation (localStat : List ℚ → ℕ → ℚ)
    (shuffle : ℕ → ℕ → ℕ → List ℚ → List ℚ) (y : List ℚ)
    (nperm seed i k : ℕ) (hi : i < y.length)
    (hperm : ∀ l : List ℚ, (shuffle seed i k l).Perm l) :
    (SpatialAuto.localPermTest localStat shuffle y nperm seed).length = y.length ∧
      ((SpatialAuto.localPermTest localStat shuffle y nperm seed).getD i ([], 0)).1.length
        = nperm ∧
      ((SpatialAuto.localPermTest localStat shuffle y nperm seed).getD i ([], 0)).2 =
        SpatialAuto.pSim
          ((SpatialAuto.localPermTest localStat shuffle y nperm seed).getD i ([], 0)).1
          (localStat y i) ∧
      (SpatialAuto.condPermute (shuffle seed i k) y i).getD i 0 = y.getD i 0 ∧
      ((SpatialAuto.condPermute (shuffle seed i k) y i).eraseIdx i).Perm
        (y.eraseIdx i) := by
  have hlen : (SpatialAuto.localPermTest localStat shuffle y nperm seed).length
      = y.length := by
    simp [SpatialAuto.localPermTest]
  have hget : (SpatialAuto.localPermTest localStat shuffle y nperm seed).getD i ([], 0) =
      ((List.range nperm).map
          (fun m => localStat (SpatialAuto.condPermute (shuffle seed i m) y i) i),
        SpatialAuto.pSim
          ((List.range nperm).map
            (fun m => localStat (SpatialAuto.condPermute (shuffle seed i m) y i) i))
          (localStat y i)) := by
    rw [List.getD_eq_getElem _ _ (by rw [hlen]; exact hi)]
    simp [SpatialAuto.localPermTest]
  have herase : (SpatialAuto.condPermute (shuffle seed i k) y i).eraseIdx i =
      shuffle seed i k (y.eraseIdx i) := by
    rw [SpatialAuto.condPermute, List.eraseIdx_insertIdx]
  have hshlen : (shuffle seed i k (y.eraseIdx i)).length = y.length - 1 := by
    rw [(hperm (y.eraseIdx i)).length_eq, List.length_eraseIdx_of_lt hi]
  refine ⟨hlen, ?_, ?_, ?_, ?_⟩
  · rw [hget]; simp
  · rw [hget]
  · have hile : i ≤ (shuffle seed i k (y.eraseIdx i)).length := by
      rw [hshlen]; exact Nat.le_pred_of_lt hi
    rw [SpatialAuto.condPermute,
      List.getD_eq_getElem _ _
        (by rw [List.length_insertIdx _ _ hile, hshlen]; omega),
      List.getElem_insertIdx_self _ _ _ hile]
  · rw [herase]; exact hperm (y.eraseIdx i)

/-- Witness for C6: three units, focal unit 1, reversal as the shuffle. -/
theorem C6_local_conditional_permutation_witness :
    (1 < ([1, 2, 3] : List ℚ).length ∧
        ∀ l : List ℚ, ((fun (_ _ _ : ℕ) (l : List ℚ) => l.reverse) 0 1 0 l).Perm l) ∧
      ((SpatialAuto.localPermTest (fun l j => l.getD j 0)
            (fun _ _ _ l => l.reverse) [1, 2, 3] 2 0).length = ([1, 2, 3] : List ℚ).length ∧
        ((SpatialAuto.localPermTest (fun l j => l.getD j 0)
            (fun _ _ _ l => l.reverse) [1, 2, 3] 2 0).getD 1 ([], 0)).1.length = 2 ∧
        ((SpatialAuto.localPermTest (fun l j => l.getD j 0)
            (fun _ _ _ l => l.reverse) [1, 2, 3] 2 0).getD 1 ([], 0)).2 =
          SpatialAuto.pSim
            ((SpatialAuto.localPermTest (fun l j => l.getD j 0)
              (fun _ _ _ l => l.reverse) [1, 2, 3] 2 0).getD 1 ([], 0)).1
            ((fun (l : List ℚ) (j : ℕ) => l.getD j 0) [1, 2, 3] 1) ∧
        (SpatialAuto.condPermute ((fun (_ _ _ : ℕ) (l : List ℚ) => l.reverse) 0 1 0)
            [1, 2, 3] 1).getD 1 0 = ([1, 2, 3] : List ℚ).getD 1 0 ∧
        ((SpatialAuto.condPermute ((fun (_ _ _ : ℕ) (l : List ℚ) => l.reverse) 0 1 0)
            [1, 2, 3] 1).eraseIdx 1).Perm (([1, 2, 3] : List ℚ).eraseIdx 1)) :=
  ⟨⟨by decide, fun l => l.reverse_perm⟩,
    C6_local_conditional_permutation (fun l j => l.getD j 0)
      (fun _ _ _ l => l.reverse) [1, 2, 3] 2 0 1 0 (by decide)
      (fun l => l.reverse_perm)⟩

/-- C10: the derived binary label vector marks a unit high (1) exactly when
its value strictly exceeds the median, so a unit at the median is labelled
low (0), every unit gets exactly one of the two labels, and whenever some
unit attains the median the number of high units is strictly below half
of `n`. -/
theorem C10_median_threshold (ys : List ℚ) (i : ℕ) (hi : i < ys.length) :
    (SpatialAuto.highLabels ys).length = ys.length ∧
      ((SpatialAuto.highLabels ys).getD i 0 = 1 ↔
        SpatialAuto.median ys < ys.getD i 0) ∧
      ((SpatialAuto.highLabels ys).getD i 0 = 0 ↔
        ¬ SpatialAuto.median ys < ys.getD i 0) ∧
      ((∃ x ∈ ys, x = SpatialAuto.median ys) →
        2 * (SpatialAuto.highLabels ys).count 1 < ys.length) := by
  have hlen : (SpatialAuto.highLabels ys).length = ys.length :=
    List.length_map _ _
  have hget : (SpatialAuto.highLabels ys).getD i 0 =
      if SpatialAuto.median ys < ys.getD i 0 then 1 else 0 := by
    rw [List.getD_eq_getElem _ _ (by rw [hlen]; exact hi),
      List.getD_eq_getElem _ _ hi]
    simp [SpatialAuto.highLabels]
  refine ⟨hlen, ?_, ?_, SpatialAuto.two_mul_count_high_lt_length ys⟩
  · rw [hget]; by_cases h : SpatialAuto.median ys < ys.getD i 0 <;> simp [h]
  · rw [hget]; by_cases h : SpatialAuto.median ys < ys.getD i 0 <;> simp [h]

/-- Witness for C10 on the vector `[1, 2, 3]` at unit 0. -/
theorem C10_median_threshold_witness :
    0 < ([1, 2, 3] : List ℚ).length ∧
      ((SpatialAuto.highLabels [1, 2, 3]).length = ([1, 2, 3] : List ℚ).length ∧
        ((SpatialAuto.highLabels [1, 2, 3]).getD 0 0 = 1 ↔
          SpatialAuto.median [1, 2, 3] < ([1, 2, 3] : List ℚ).getD 0 0) ∧
        ((SpatialAuto.highLabels [1, 2, 3]).getD 0 0 = 0 ↔
          ¬ SpatialAuto.median [1, 2, 3] < ([1, 2, 3] : List ℚ).getD 0 0) ∧
        ((∃ x ∈ ([1, 2, 3] : List ℚ), x = SpatialAuto.median [1, 2, 3]) →
          2 * (SpatialAuto.highLabels [1, 2, 3]).count 1 <
            ([1, 2, 3] : List ℚ).length)) :=
  ⟨by decide, C10_median_threshold [1, 2, 3] 0 (by decide)⟩
